import Mathlib

/-!
Verification development for the alert-analyzer core of the sre-toolkit
repository: the Prometheus episode reconstructor
(`internal/alert-analyzer/collector/prometheus.go`), the Alertmanager
snapshot collector (`collector/alertmanager.go`), the frequency analyzer
(`analyzer/frequency.go`) and the flapping analyzer (`analyzer/flapping.go`).

Modelling conventions:
- `time.Time` and `time.Duration` are modelled as `Int` (nanoseconds since
  the Unix epoch / nanosecond counts); `time.Now()` becomes an explicit
  `now : Int` argument threaded to every function that reads the clock
  (`Alert.Duration` calls `time.Since` for unresolved alerts).
- `float64` sample values, scores and thresholds are modelled as `ℚ`.
- Go integer division (which truncates toward zero) is `Int.tdiv`.
- Go maps are modelled as association lists holding the same key/value
  content in insertion order.  Go randomizes the *iteration* order of a
  map, so every function that ranges over a map takes the ranged
  key/value list as an explicit argument `g`, constrained in the theorems
  to be a permutation of the map content.  This makes the analyzer
  functions total over all iteration orders Go may choose.
- A `nil` pointer to `AlertHistory` is `Option.none`; functions whose Go
  counterpart dereferences a nil pointer (and hence panics) return
  `Option.none` in that case.
-/

/-! ### Int model -/

def nsPerSec : Int := 1000000000

def nsPerHour : Int := 3600000000000

/-- Instant of the zero `time.Time` value (January 1, year 1 UTC), in
nanoseconds relative to the Unix epoch. -/
def goZeroTime : Int := -62135596800000000000

/-! ### collector types (collector/types.go) -/

/-- Alert represents a single alert instance (one reconstructed episode). -/
structure Alert where
  name : String
  labels : List (String × String)
  annotations : List (String × String)
  state : String
  value : ℚ
  activeAt : Int
  firedAt : Int
  resolvedAt : Option Int
deriving DecidableEq, Repr

/-- AlertHistory represents a collection of alerts over a time period. -/
structure AlertHistory where
  alerts : List Alert
  startTime : Int
  endTime : Int
  source : String
deriving DecidableEq, Repr

/-- GetSeverity returns the severity label value, or "unknown" if not present. -/
def Alert.getSeverity (a : Alert) : String :=
  (a.labels.lookup "severity").getD "unknown"

/-- Duration returns the duration the alert was in firing state:
`ResolvedAt - FiredAt` when resolved, else `time.Since(FiredAt)`, i.e.
`now - FiredAt` at the evaluation instant `now`. -/
def Alert.duration (a : Alert) (now : Int) : Int :=
  match a.resolvedAt with
  | some r => r - a.firedAt
  | none => now - a.firedAt

/-- IsResolved returns true if the alert has been resolved. -/
def Alert.isResolved (a : Alert) : Bool :=
  a.resolvedAt.isSome

/-- Single step of `GroupAlertsByName`: `groups[name] = append(groups[name], alert)`
on the association-list model of the Go map. -/
def upsertGroup (gs : List (String × List Alert)) (name : String) (a : Alert) :
    List (String × List Alert) :=
  match gs with
  | [] => [(name, [a])]
  | (k, as) :: rest =>
      if k = name then (k, as ++ [a]) :: rest else (k, as) :: upsertGroup rest name a

/-- GroupAlertsByName groups alerts by their alert name (map content in
discovery order; Go ranges over this map in an arbitrary order). -/
def groupAlertsByName (alerts : List Alert) : List (String × List Alert) :=
  alerts.foldl (fun gs a => upsertGroup gs a.name a) []

/-- CountAlerts returns the total number of alerts in the history. -/
def AlertHistory.countAlerts (h : AlertHistory) : Nat :=
  h.alerts.length

/-! ### Prometheus range-query episode reconstruction (collector/prometheus.go) -/

/-- One sample of a Prometheus matrix stream: a millisecond timestamp and a
float value. -/
structure Sample where
  timestamp : Int
  value : ℚ
deriving DecidableEq, Repr

/-- One stream of a Prometheus matrix result: a metric label set and its
samples. -/
structure SampleStream where
  metric : List (String × String)
  values : List Sample
deriving DecidableEq, Repr

/-- Conversion `time.Unix(int64(sample.Timestamp)/1000, 0)` applied to a
millisecond timestamp: truncated division to seconds, then to nanoseconds. -/
def sampleTime (ms : Int) : Int :=
  ms.tdiv 1000 * nsPerSec

/-- Extraction `string(stream.Metric["alertname"])` (empty if absent). -/
def metricAlertname (m : List (String × String)) : String :=
  (m.lookup "alertname").getD ""

/-- Label extraction loop of `parseAlerts`: every metric label except the
special `alertname` and `alertstate` keys. -/
def metricLabels (m : List (String × String)) : List (String × String) :=
  m.filter (fun kv => !(kv.1 == "alertname" || kv.1 == "alertstate"))

/-- createAlertKey creates a unique key for an alert instance by
concatenating the name with the labels. -/
def createAlertKey (name : String) (labels : List (String × String)) : String :=
  labels.foldl (fun key kv => key ++ "_" ++ kv.1 ++ "=" ++ kv.2) name

/-- Episode opened by the first sample of a key in `parseAlerts`. -/
def mkParsedAlert (name : String) (labels : List (String × String)) (s : Sample) : Alert :=
  { name := name
    labels := labels
    annotations := []
    state := "firing"
    value := s.value
    activeAt := sampleTime s.timestamp
    firedAt := sampleTime s.timestamp
    resolvedAt := none }

/-- Update applied by `parseAlerts` when a zero-valued sample closes an
episode: record the resolution time and mark the episode inactive. -/
def resolveAlert (a : Alert) (t : Int) : Alert :=
  { a with resolvedAt := some t, state := "inactive" }

/-- Effect of one subsequent same-key sample on an existing episode:
the first zero-valued sample while unresolved closes it, anything else
leaves it unchanged. -/
def stepAlert (a : Alert) (s : Sample) : Alert :=
  if s.value = 0 ∧ a.resolvedAt = none then resolveAlert a (sampleTime s.timestamp) else a

/-- Association-list model of the `alertMap` of `parseAlerts`
(`map[string]*Alert` in Go). -/
abbrev AlertMap := List (String × Alert)

/-- In-place update of the alert stored under an existing key (the Go code
mutates through the stored pointer). -/
def setAlert (m : AlertMap) (k : String) (a : Alert) : AlertMap :=
  match m with
  | [] => [(k, a)]
  | (q, b) :: rest => if q = k then (k, a) :: rest else (q, b) :: setAlert rest k a

/-- Body of the per-sample loop of `parseAlerts`: create the episode on the
first sample of a key, close it on the first zero-valued sample while it is
still open, ignore every other sample. -/
def processSample (name : String) (labels : List (String × String))
    (m : AlertMap) (s : Sample) : AlertMap :=
  let key := createAlertKey name labels
  match m.lookup key with
  | none => m ++ [(key, mkParsedAlert name labels s)]
  | some alert =>
      if s.value = 0 ∧ alert.resolvedAt = none then
        setAlert m key (resolveAlert alert (sampleTime s.timestamp))
      else m

/-- Body of the per-stream loop of `parseAlerts`: streams with no
`alertname` label are skipped, otherwise every sample is processed. -/
def processStream (m : AlertMap) (st : SampleStream) : AlertMap :=
  let alertName := metricAlertname st.metric
  if alertName = "" then m
  else st.values.foldl (processSample alertName (metricLabels st.metric)) m

/-- Contents of the `alertMap` built by `parseAlerts` over a matrix result. -/
def parseAlertsMap (streams : List SampleStream) : AlertMap :=
  streams.foldl processStream []

/-- parseAlerts converts a Prometheus range-query matrix into Alert episodes
(the Go code ranges over `alertMap` to build the slice; membership in the
returned slice does not depend on that iteration order). -/
def parseAlerts (streams : List SampleStream) : List Alert :=
  (parseAlertsMap streams).map Prod.snd

/-- Timestamp (converted like `parseAlerts` does) of the first zero-valued
sample of a list, if any. -/
def firstZeroTime (l : List Sample) : Option Int :=
  (l.find? (fun s => decide (s.value = 0))).map (fun s => sampleTime s.timestamp)

/-! ### Alertmanager snapshot collector (collector/alertmanager.go) -/

/-- Alert as returned by the Alertmanager v2 API. -/
structure AmAlert where
  labels : List (String × String)
  annotations : List (String × String)
  startsAt : Int
  endsAt : Int
deriving DecidableEq, Repr

/-- Mapping of one Alertmanager alert to an `Alert` performed by
`AlertmanagerCollector.CollectCurrentAlerts`. -/
def amMapAlert (now : Int) (am : AmAlert) : Alert :=
  let alert : Alert :=
    { name := (am.labels.lookup "alertname").getD ""
      labels := am.labels
      annotations := am.annotations
      state := "firing"
      value := 1
      activeAt := am.startsAt
      firedAt := am.startsAt
      resolvedAt := none }
  let alert :=
    if am.endsAt ≠ goZeroTime ∧ am.endsAt < now then
      { alert with resolvedAt := some am.endsAt, state := "resolved" }
    else alert
  if alert.name = "" then { alert with name := "unknown" } else alert

/-- CollectCurrentAlerts fetches currently firing alerts from Alertmanager
and wraps them into a point-in-time `AlertHistory`. -/
def amCollectCurrentAlerts (now : Int) (amAlerts : List AmAlert) : AlertHistory :=
  { alerts := amAlerts.map (amMapAlert now)
    startTime := now
    endTime := now
    source := "alertmanager" }

/-! ### Frequency analyzer (analyzer/frequency.go) -/

/-- FrequencyResult represents the firing frequency analysis for a single alert. -/
structure FrequencyResult where
  alertName : String
  firingCount : Nat
  totalTime : Int
  avgDuration : Int
  lastFired : Int
  severity : String
deriving DecidableEq, Repr

/-- Loop state of `analyzeAlertGroup` in frequency.go. -/
structure FreqAcc where
  firingCount : Nat
  totalTime : Int
  lastFired : Int
  severity : String
deriving DecidableEq, Repr

/-- Body of the per-alert loop of `FrequencyAnalyzer.analyzeAlertGroup`. -/
def freqStep (now : Int) (acc : FreqAcc) (alert : Alert) : FreqAcc :=
  { firingCount := acc.firingCount + 1
    totalTime := acc.totalTime + alert.duration now
    lastFired := if acc.lastFired < alert.firedAt then alert.firedAt else acc.lastFired
    severity := if acc.severity = "" then alert.getSeverity else acc.severity }

/-- analyzeAlertGroup analyzes a group of alerts with the same name. -/
def frequencyAnalyzeAlertGroup (now : Int) (alertName : String) (alerts : List Alert) :
    FrequencyResult :=
  let acc := alerts.foldl (freqStep now) ⟨0, 0, goZeroTime, ""⟩
  let avgDuration : Int :=
    if acc.firingCount > 0 then acc.totalTime.tdiv acc.firingCount else 0
  { alertName := alertName
    firingCount := acc.firingCount
    totalTime := acc.totalTime
    avgDuration := avgDuration
    lastFired := acc.lastFired
    severity := acc.severity }

/-- Comparator under which `sort.Slice(results, FiringCount descending)` in
frequency.go leaves its output ordered: `a` may precede `b` when its firing
count is at least that of `b`. -/
def freqGE (a b : FrequencyResult) : Prop :=
  b.firingCount ≤ a.firingCount

instance : DecidableRel freqGE :=
  fun a b => inferInstanceAs (Decidable (b.firingCount ≤ a.firingCount))

instance : IsTotal FrequencyResult freqGE :=
  ⟨fun a b => le_total b.firingCount a.firingCount⟩

instance : IsTrans FrequencyResult freqGE :=
  ⟨fun _ _ _ h1 h2 => le_trans h2 h1⟩

/-- Result list built by `FrequencyAnalyzer.Analyze` when ranging over the
grouped map in the order given by `g`, then sorting by firing count
descending. -/
def frequencyAnalyzeOf (g : List (String × List Alert)) (now : Int) :
    List FrequencyResult :=
  List.insertionSort freqGE (g.map (fun p => frequencyAnalyzeAlertGroup now p.1 p.2))

/-- Analyze performs frequency analysis and returns results for all alerts.
The receiver history is a pointer; the Go body dereferences it
unconditionally (`a.history.Alerts`), so a nil history panics, modelled by
`none`.  `g` is `GroupAlertsByName(history.Alerts)` in the arbitrary order
Go ranges over the map. -/
def frequencyAnalyze (hist : Option AlertHistory) (g : List (String × List Alert))
    (now : Int) : Option (List FrequencyResult) :=
  match hist with
  | none => none
  | some _ => some (frequencyAnalyzeOf g now)

/-- AnalyzeTopN returns the top N most frequently firing alerts
(`allResults[:n]` panics for negative `n`, modelled by `none`). -/
def frequencyAnalyzeTopN (hist : Option AlertHistory) (g : List (String × List Alert))
    (now : Int) (n : Int) : Option (List FrequencyResult) :=
  match frequencyAnalyze hist g now with
  | none => none
  | some allResults =>
      let m := if n > (allResults.length : Int) then (allResults.length : Int) else n
      if m < 0 then none else some (allResults.take m.toNat)

/-- SummaryStats holds summary statistics for all alerts. -/
structure SummaryStats where
  totalAlerts : Nat
  uniqueAlerts : Nat
  totalFirings : Nat
  avgDuration : Int
  totalFiringTime : Int
  mostFrequent : String
  longestAvgDuration : String
deriving DecidableEq, Repr

/-- GetSummaryStats returns overall summary statistics (a nil history makes
the inner `Analyze` call panic, modelled by `none`). -/
def getSummaryStats (hist : Option AlertHistory) (g : List (String × List Alert))
    (now : Int) : Option SummaryStats :=
  match hist with
  | none => none
  | some h =>
      let results := frequencyAnalyzeOf g now
      match results with
      | [] => some ⟨0, 0, 0, 0, 0, "", ""⟩
      | r0 :: _ =>
          let totalFirings := (results.map (fun r => r.firingCount)).sum
          let totalFiringTime := (results.map (fun r => r.totalTime)).sum
          let avgDuration : Int :=
            if totalFirings > 0 then totalFiringTime.tdiv totalFirings else 0
          let longest := results.foldl
            (fun (acc : String × Int) r =>
              if r.avgDuration > acc.2 then (r.alertName, r.avgDuration) else acc)
            (r0.alertName, r0.avgDuration)
          some { totalAlerts := h.countAlerts
                 uniqueAlerts := results.length
                 totalFirings := totalFirings
                 avgDuration := avgDuration
                 totalFiringTime := totalFiringTime
                 mostFrequent := r0.alertName
                 longestAvgDuration := longest.1 }

/-! ### Flapping analyzer (analyzer/flapping.go) -/

/-- StateTransition represents a single state change event for an alert. -/
structure StateTransition where
  alertKey : String
  timestamp : Int
  fromState : String
  toState : String
deriving DecidableEq, Repr

/-- FlappingResult represents the flapping analysis for a single alert. -/
structure FlappingResult where
  alertName : String
  transitionCount : Nat
  flappingScore : ℚ
  avgStateDuration : Int
  shortestDuration : Int
  isFlapping : Bool
  severity : String
deriving DecidableEq, Repr

/-- DefaultFlappingThreshold is the default threshold for flapping detection. -/
def defaultFlappingThreshold : ℚ := 3

/-- Threshold stored by `NewFlappingAnalyzer`: non-positive inputs are
replaced by the default. -/
def newFlappingThreshold (threshold : ℚ) : ℚ :=
  if threshold ≤ 0 then defaultFlappingThreshold else threshold

/-- Body of the per-alert loop of `detectStateTransitions`: first the
firing check (which may advance the tracked state), then the resolution
check against the possibly-updated state. -/
def transStep (acc : String × List StateTransition) (alert : Alert) :
    String × List StateTransition :=
  let fire := acc.1 ≠ "firing" ∧ alert.state = "firing"
  let cur := if fire then "firing" else acc.1
  let ts := if fire then acc.2 ++ [⟨alert.name, alert.firedAt, acc.1, "firing"⟩] else acc.2
  match alert.resolvedAt with
  | some r =>
      if cur = "firing" then ("resolved", ts ++ [⟨alert.name, r, "firing", "resolved"⟩])
      else (cur, ts)
  | none => (cur, ts)

/-- detectStateTransitions identifies state changes in a sorted list of
alerts, starting from the tracked state "inactive". -/
def detectStateTransitions (sortedAlerts : List Alert) : List StateTransition :=
  (sortedAlerts.foldl transStep ("inactive", [])).2

/-- Consecutive gaps of a timestamp sequence (the intervals the
`calculateDurations` loop iterates over). -/
def gaps : List Int → List Int
  | a :: b :: rest => (b - a) :: gaps (b :: rest)
  | _ => []

/-- calculateDurations calculates the average and shortest duration between
transitions (with fewer than two transitions, it falls back to the mean
alert duration and a zero shortest interval). -/
def calculateDurations (now : Int) (alerts : List Alert)
    (transitions : List StateTransition) : Int × Int :=
  if transitions.length < 2 then
    let avg : Int :=
      if alerts.length > 0 then
        Int.tdiv (alerts.map (fun a => Alert.duration a now)).sum (alerts.length : Int)
      else 0
    (avg, 0)
  else
    let ints := gaps (transitions.map (fun t => t.timestamp))
    let totalInterval := ints.sum
    let shortest := ints.foldl (fun s i => if i < s then i else s) (2 ^ 63 - 1 : Int)
    (totalInterval.tdiv ((transitions.length : Int) - 1), shortest)

/-- Comparator under which the stable model of
`sort.Slice(sortedAlerts, FiredAt.Before)` in `analyzeAlertGroup` orders
episodes: ascending fired time. -/
def firedLE (a b : Alert) : Prop :=
  a.firedAt ≤ b.firedAt

instance : DecidableRel firedLE :=
  fun a b => inferInstanceAs (Decidable (a.firedAt ≤ b.firedAt))

instance : IsTotal Alert firedLE :=
  ⟨fun a b => le_total a.firedAt b.firedAt⟩

instance : IsTrans Alert firedLE :=
  ⟨fun _ _ _ h1 h2 => le_trans h1 h2⟩

/-- analyzeAlertGroup analyzes a group of alerts with the same name for
flapping behavior. -/
def flappingAnalyzeAlertGroup (threshold : ℚ) (now : Int) (alertName : String)
    (alerts : List Alert) (analysisPeriod : Int) : FlappingResult :=
  if alerts.length = 0 then
    { alertName := alertName
      transitionCount := 0
      flappingScore := 0
      avgStateDuration := 0
      shortestDuration := 0
      isFlapping := false
      severity := "" }
  else
    let sortedAlerts := List.insertionSort firedLE alerts
    let transitions := detectStateTransitions sortedAlerts
    let hoursInPeriod : ℚ := (analysisPeriod : ℚ) / (nsPerHour : ℚ)
    let hoursInPeriod := if hoursInPeriod ≤ 0 then 1 else hoursInPeriod
    let flappingScore : ℚ := (transitions.length : ℚ) / hoursInPeriod
    let durs := calculateDurations now sortedAlerts transitions
    let severity := match sortedAlerts with
      | [] => "unknown"
      | a :: _ => a.getSeverity
    { alertName := alertName
      transitionCount := transitions.length
      flappingScore := flappingScore
      avgStateDuration := durs.1
      shortestDuration := durs.2
      isFlapping := decide (flappingScore ≥ threshold)
      severity := severity }

/-- Comparator under which `sort.Slice(results, FlappingScore descending)`
leaves the flapping output ordered. -/
def flapGE (a b : FlappingResult) : Prop :=
  b.flappingScore ≤ a.flappingScore

instance : DecidableRel flapGE :=
  fun a b => inferInstanceAs (Decidable (b.flappingScore ≤ a.flappingScore))

instance : IsTotal FlappingResult flapGE :=
  ⟨fun a b => le_total b.flappingScore a.flappingScore⟩

instance : IsTrans FlappingResult flapGE :=
  ⟨fun _ _ _ h1 h2 => le_trans h2 h1⟩

/-- Analysis window length used by `FlappingAnalyzer.Analyze`: the history
window, with one hour substituted when it is non-positive. -/
def analysisPeriodOf (h : AlertHistory) : Int :=
  let p := h.endTime - h.startTime
  if p ≤ 0 then nsPerHour else p

/-- Analyze performs flapping analysis and returns results for all alerts;
a nil or empty history short-circuits to an empty list.  `g` is the grouped
map in the arbitrary order Go ranges over it. -/
def flappingAnalyze (hist : Option AlertHistory) (threshold : ℚ)
    (g : List (String × List Alert)) (now : Int) : List FlappingResult :=
  match hist with
  | none => []
  | some h =>
      if h.alerts.length = 0 then []
      else
        List.insertionSort flapGE
          (g.map (fun p => flappingAnalyzeAlertGroup threshold now p.1 p.2 (analysisPeriodOf h)))

/-- AnalyzeTopN returns the top N most flapping alerts (`allResults[:n]`
panics for negative `n`, modelled by `none`). -/
def flappingAnalyzeTopN (hist : Option AlertHistory) (threshold : ℚ)
    (g : List (String × List Alert)) (now : Int) (n : Int) :
    Option (List FlappingResult) :=
  let allResults := flappingAnalyze hist threshold g now
  let m := if n > (allResults.length : Int) then (allResults.length : Int) else n
  if m < 0 then none else some (allResults.take m.toNat)

/-- FlappingSummary holds summary statistics for flapping analysis. -/
structure FlappingSummary where
  totalAlerts : Nat
  flappingAlerts : Nat
  avgFlappingScore : ℚ
  maxFlappingScore : ℚ
  mostFlapping : String
  threshold : ℚ
deriving DecidableEq, Repr

/-- GetSummary returns overall summary statistics for flapping analysis. -/
def getFlappingSummary (hist : Option AlertHistory) (threshold : ℚ)
    (g : List (String × List Alert)) (now : Int) : FlappingSummary :=
  let results := flappingAnalyze hist threshold g now
  match results with
  | [] => { totalAlerts := 0
            flappingAlerts := 0
            avgFlappingScore := 0
            maxFlappingScore := 0
            mostFlapping := ""
            threshold := threshold }
  | _ :: _ =>
      let flappingCount := (results.filter (fun r => r.isFlapping)).length
      let totalScore := (results.map (fun r => r.flappingScore)).sum
      let best := results.foldl
        (fun (acc : ℚ × String) r =>
          if r.flappingScore > acc.1 then (r.flappingScore, r.alertName) else acc)
        (0, "")
      { totalAlerts := results.length
        flappingAlerts := flappingCount
        avgFlappingScore := totalScore / (results.length : ℚ)
        maxFlappingScore := best.1
        mostFlapping := best.2
        threshold := threshold }

/-! ### Specification-side definitions

These definitions follow the wording of the specification (and of the
claims under check), to be compared with the embedded code above. -/

/-- Transition walk as worded by the specification for the flapping
analyzer, amended with the episode-state condition the code actually
checks: for each episode, if the current state is not already "firing"
and the episode's recorded state is "firing", emit (current → "firing") at
fired_at and set current to "firing"; then, if the episode carries a
resolution and the current state is "firing", emit ("firing" → "resolved")
at the resolution time and set current to "resolved"; nothing else is
emitted. -/
def specTransitions (cur : String) : List Alert → List StateTransition
  | [] => []
  | a :: rest =>
      if cur ≠ "firing" ∧ a.state = "firing" then
        match a.resolvedAt with
        | some r =>
            ⟨a.name, a.firedAt, cur, "firing"⟩ ::
            ⟨a.name, r, "firing", "resolved"⟩ :: specTransitions "resolved" rest
        | none => ⟨a.name, a.firedAt, cur, "firing"⟩ :: specTransitions "firing" rest
      else
        match a.resolvedAt with
        | some r =>
            if cur = "firing" then
              ⟨a.name, r, "firing", "resolved"⟩ :: specTransitions "resolved" rest
            else specTransitions cur rest
        | none => specTransitions cur rest

/-- Transition walk exactly as the claim under check words it (without the
episode-state condition): whenever the current state is not already
"firing" a (current → "firing") transition is emitted at the episode's
fired_at, regardless of the episode's own recorded state. -/
def claimedTransitions (cur : String) : List Alert → List StateTransition
  | [] => []
  | a :: rest =>
      if cur ≠ "firing" then
        match a.resolvedAt with
        | some r =>
            ⟨a.name, a.firedAt, cur, "firing"⟩ ::
            ⟨a.name, r, "firing", "resolved"⟩ :: claimedTransitions "resolved" rest
        | none => ⟨a.name, a.firedAt, cur, "firing"⟩ :: claimedTransitions "firing" rest
      else
        match a.resolvedAt with
        | some r => ⟨a.name, r, "firing", "resolved"⟩ :: claimedTransitions "resolved" rest
        | none => claimedTransitions cur rest

/-- Number of hours of the analysis window as the specification words it:
`EndTime - StartTime`, with one hour substituted whenever the window is
non-positive (matching both substitutions performed by the code). -/
def effectiveHours (h : AlertHistory) : ℚ :=
  let hrs : ℚ := (analysisPeriodOf h : ℚ) / (nsPerHour : ℚ)
  if hrs ≤ 0 then 1 else hrs

/-- Invariant claimed for collector-constructed alerts: the resolution
timestamp, when present, is not before the fired time. -/
def alertInvB (a : Alert) : Bool :=
  match a.resolvedAt with
  | some r => decide (a.firedAt ≤ r)
  | none => true

/-- Per-alert well-formedness under which the frequency totals are
non-negative: a resolved episode resolves no earlier than it fired, and an
open episode fired no later than the evaluation instant. -/
def alertDurationOkB (now : Int) (a : Alert) : Bool :=
  match a.resolvedAt with
  | some r => decide (a.firedAt ≤ r)
  | none => decide (a.firedAt ≤ now)

/-! ### Per-key view of the reconstruction (proof machinery for parseAlerts) -/

/-- One matrix sample tagged with the identity of its stream. -/
structure TaggedSample where
  name : String
  labels : List (String × String)
  sample : Sample
deriving DecidableEq, Repr

/-- Key under which `parseAlerts` files a tagged sample. -/
def tagKey (t : TaggedSample) : String :=
  createAlertKey t.name t.labels

/-- Tagged samples contributed by one stream (none when the stream has no
`alertname`). -/
def streamTagged (st : SampleStream) : List TaggedSample :=
  if metricAlertname st.metric = "" then []
  else st.values.map (fun s => ⟨metricAlertname st.metric, metricLabels st.metric, s⟩)

/-- Processing of one tagged sample against the alert map. -/
def processTagged (m : AlertMap) (t : TaggedSample) : AlertMap :=
  processSample t.name t.labels m t.sample

/-- Millisecond timestamps of the samples filed under key `k`, in
processing order. -/
def keyTimes (k : String) (l : List TaggedSample) : List Int :=
  (l.filter (fun t => tagKey t == k)).map (fun t => t.sample.timestamp)

/-! ### Concrete fixtures used by witnesses and counterexamples -/

/-- Stream mirroring the repository's own collector test: three samples of
a HighCPU alert, the last of value zero. -/
def stFix : SampleStream :=
  { metric := [("__name__", "ALERTS"), ("alertname", "HighCPU"),
               ("alertstate", "firing"), ("severity", "critical")]
    values := [⟨1735689600000, 1⟩, ⟨1735689660000, 1⟩, ⟨1735689720000, 0⟩] }

/-- Resolved episode exactly as the Prometheus reconstruction emits it
(state "inactive", resolution recorded): the shape on which the claimed
transition walk and the implemented one disagree. -/
def inactiveEpisode : Alert :=
  { name := "AlertA"
    labels := []
    annotations := []
    state := "inactive"
    value := 1
    activeAt := 0
    firedAt := 0
    resolvedAt := some 300000000000 }

/-- Open episode (still firing) fired at the epoch. -/
def openEpisode : Alert :=
  { name := "OpenAlert"
    labels := [("severity", "warning")]
    annotations := []
    state := "firing"
    value := 1
    activeAt := 0
    firedAt := 0
    resolvedAt := none }

/-- Resolved firing episode helper for fixtures. -/
def mkEpisode (nm : String) (fired resolved : Int) : Alert :=
  { name := nm
    labels := [("severity", "warning")]
    annotations := []
    state := "firing"
    value := 1
    activeAt := fired
    firedAt := fired
    resolvedAt := some resolved }

/-- History with one open episode inside a one-hour window. -/
def hOpen : AlertHistory :=
  { alerts := [openEpisode]
    startTime := 0
    endTime := nsPerHour
    source := "prometheus" }

/-- History with two identities of one episode each (a firing-count tie),
inside a one-hour window. -/
def hTie : AlertHistory :=
  { alerts := [mkEpisode "AAlert" 0 nsPerSec, mkEpisode "BAlert" (2 * nsPerSec) (3 * nsPerSec)]
    startTime := 0
    endTime := nsPerHour
    source := "prometheus" }

/-- The grouped map of `hTie` ranged over in the opposite of discovery
order, as Go's randomized map iteration may do. -/
def gTieSwapped : List (String × List Alert) :=
  [("BAlert", [mkEpisode "BAlert" (2 * nsPerSec) (3 * nsPerSec)]),
   ("AAlert", [mkEpisode "AAlert" 0 nsPerSec])]

/-- History containing an episode whose recorded resolution precedes its
fired time. -/
def hNeg : AlertHistory :=
  { alerts := [{ name := "Bad"
                 labels := []
                 annotations := []
                 state := "inactive"
                 value := 1
                 activeAt := 10 * nsPerSec
                 firedAt := 10 * nsPerSec
                 resolvedAt := some 0 }]
    startTime := 0
    endTime := nsPerHour
    source := "prometheus" }

/-- History with three episodes over two identities, all resolved. -/
def hTwo : AlertHistory :=
  { alerts := [mkEpisode "AlertA" 0 nsPerSec,
               mkEpisode "AlertA" (2 * nsPerSec) (3 * nsPerSec),
               mkEpisode "AlertB" nsPerSec (2 * nsPerSec)]
    startTime := 0
    endTime := nsPerHour
    source := "prometheus" }

/-- Alertmanager alert whose source-reported end precedes its start. -/
def amBad : AmAlert :=
  { labels := [("alertname", "BadWindow")]
    annotations := []
    startsAt := 10 * nsPerSec
    endsAt := 5 * nsPerSec }

/-- Alertmanager alert with a consistent window, already ended. -/
def amGood : AmAlert :=
  { labels := [("alertname", "GoodWindow")]
    annotations := []
    startsAt := 5 * nsPerSec
    endsAt := 10 * nsPerSec }

/-- Empty (but non-nil) history. -/
def hEmpty : AlertHistory :=
  { alerts := [], startTime := 0, endTime := 0, source := "prometheus" }

/-! ### Helper lemmas: the per-key fold of parseAlerts -/

theorem foldl_stepAlert_of_resolved (l : List Sample) :
    ∀ a : Alert, a.resolvedAt.isSome → l.foldl stepAlert a = a := by
  induction l with
  | nil => intro a _; rfl
  | cons s l ih =>
      intro a ha
      have hs : stepAlert a s = a := by
        unfold stepAlert
        rw [if_neg]
        rintro ⟨-, h2⟩
        rw [h2] at ha
        simp [Option.isSome] at ha
      rw [List.foldl_cons, hs]
      exact ih a ha

theorem foldl_stepAlert_char (l : List Sample) :
    ∀ a : Alert, a.resolvedAt = none →
      l.foldl stepAlert a =
        (match firstZeroTime l with
         | some t => resolveAlert a t
         | none => a) := by
  induction l with
  | nil => intro a _; rfl
  | cons s l ih =>
      intro a ha
      by_cases hz : s.value = 0
      · have hs : stepAlert a s = resolveAlert a (sampleTime s.timestamp) := by
          unfold stepAlert
          rw [if_pos ⟨hz, ha⟩]
        have hfz : firstZeroTime (s :: l) = some (sampleTime s.timestamp) := by
          unfold firstZeroTime
          rw [List.find?_cons_of_pos]
          · rfl
          · simpa using hz
        rw [List.foldl_cons, hs, hfz]
        exact foldl_stepAlert_of_resolved l _ rfl
      · have hs : stepAlert a s = a := by
          unfold stepAlert
          rw [if_neg]
          rintro ⟨h1, -⟩
          exact hz h1
        have hfz : firstZeroTime (s :: l) = firstZeroTime l := by
          unfold firstZeroTime
          rw [List.find?_cons_of_neg]
          simpa using hz
        rw [List.foldl_cons, hs, hfz]
        exact ih a ha

theorem foldl_processSample_single (name : String) (labels : List (String × String))
    (l : List Sample) :
    ∀ a : Alert,
      l.foldl (processSample name labels) [(createAlertKey name labels, a)] =
        [(createAlertKey name labels, l.foldl stepAlert a)] := by
  induction l with
  | nil => intro a; rfl
  | cons s l ih =>
      intro a
      rw [List.foldl_cons, List.foldl_cons]
      have hstep : processSample name labels [(createAlertKey name labels, a)] s =
          [(createAlertKey name labels, stepAlert a s)] := by
        unfold processSample stepAlert setAlert
        simp [List.lookup]
        by_cases hc : s.value = 0 ∧ a.resolvedAt = none
        · rw [if_pos hc, if_pos hc]
        · rw [if_neg hc, if_neg hc]
      rw [hstep]
      exact ih (stepAlert a s)

/-- Claim C1: processed in timestamp order, the per-key sample sequence of a
stream yields exactly one episode: the first sample opens it in state
"firing" with fired_at = activation time = the sample's (converted)
timestamp and value = the sample's value; the first subsequent zero-valued
sample records the resolution time and flips the state to "inactive"; no
later sample modifies the episode further; and when no zero-valued sample
follows (including a single-sample series) the episode stays open
(resolved_at absent) and is still part of the reconstruction's output. -/
theorem c1_parseAlerts_episode (st : SampleStream) (s0 : Sample) (rest : List Sample)
    (hname : metricAlertname st.metric ≠ "") (hvals : st.values = s0 :: rest) :
    (mkParsedAlert (metricAlertname st.metric) (metricLabels st.metric) s0).state = "firing" ∧
    (mkParsedAlert (metricAlertname st.metric) (metricLabels st.metric) s0).firedAt
      = sampleTime s0.timestamp ∧
    (mkParsedAlert (metricAlertname st.metric) (metricLabels st.metric) s0).activeAt
      = sampleTime s0.timestamp ∧
    (mkParsedAlert (metricAlertname st.metric) (metricLabels st.metric) s0).value = s0.value ∧
    (mkParsedAlert (metricAlertname st.metric) (metricLabels st.metric) s0).resolvedAt = none ∧
    parseAlerts [st] =
      [match firstZeroTime rest with
       | some t =>
           resolveAlert (mkParsedAlert (metricAlertname st.metric) (metricLabels st.metric) s0) t
       | none => mkParsedAlert (metricAlertname st.metric) (metricLabels st.metric) s0] := by
  refine ⟨rfl, rfl, rfl, rfl, rfl, ?_⟩
  unfold parseAlerts parseAlertsMap
  rw [List.foldl_cons, List.foldl_nil]
  unfold processStream
  rw [if_neg hname, hvals, List.foldl_cons]
  have h0 : processSample (metricAlertname st.metric) (metricLabels st.metric) [] s0 =
      [(createAlertKey (metricAlertname st.metric) (metricLabels st.metric),
        mkParsedAlert (metricAlertname st.metric) (metricLabels st.metric) s0)] := by
    unfold processSample
    simp [List.lookup]
  rw [h0, foldl_processSample_single,
    foldl_stepAlert_char rest (mkParsedAlert (metricAlertname st.metric) (metricLabels st.metric) s0) rfl]
  cases firstZeroTime rest <;> rfl

/-- Witness for C1 on the repository's own collector-test stream. -/
theorem c1_witness :
    parseAlerts [stFix] =
      [resolveAlert
        (mkParsedAlert (metricAlertname stFix.metric) (metricLabels stFix.metric)
          ⟨1735689600000, 1⟩)
        (sampleTime 1735689720000)] := by
  have h := c1_parseAlerts_episode stFix ⟨1735689600000, 1⟩
    [⟨1735689660000, 1⟩, ⟨1735689720000, 0⟩] (by decide) rfl
  rw [h.2.2.2.2.2]
  rfl

/-! ### Helper lemma: the transition fold against its recursive description -/

theorem foldl_transStep_spec (l : List Alert) :
    ∀ (cur : String) (acc : List StateTransition),
      (l.foldl transStep (cur, acc)).2 = acc ++ specTransitions cur l := by
  induction l with
  | nil => intro cur acc; simp [specTransitions]
  | cons a l ih =>
      intro cur acc
      rw [List.foldl_cons]
      by_cases hf : cur ≠ "firing" ∧ a.state = "firing"
      · cases hr : a.resolvedAt with
        | some r =>
            have hstep : transStep (cur, acc) a =
                ("resolved", acc ++ [⟨a.name, a.firedAt, cur, "firing"⟩] ++
                  [⟨a.name, r, "firing", "resolved"⟩]) := by
              unfold transStep
              simp [hr, hf]
            rw [hstep, ih]
            simp [specTransitions, hf, hr]
        | none =>
            have hstep : transStep (cur, acc) a =
                ("firing", acc ++ [⟨a.name, a.firedAt, cur, "firing"⟩]) := by
              unfold transStep
              simp [hr, hf]
            rw [hstep, ih]
            simp [specTransitions, hf, hr]
      · cases hr : a.resolvedAt with
        | some r =>
            by_cases hc : cur = "firing"
            · have hstep : transStep (cur, acc) a =
                  ("resolved", acc ++ [⟨a.name, r, "firing", "resolved"⟩]) := by
                unfold transStep
                simp [hr, hf, hc]
              rw [hstep, ih]
              simp [specTransitions, hf, hr, hc]
            · have hs : a.state ≠ "firing" := fun h => hf ⟨hc, h⟩
              have hstep : transStep (cur, acc) a = (cur, acc) := by
                unfold transStep
                simp [hr, hs, hc]
              rw [hstep, ih]
              simp [specTransitions, hf, hr, hc, hs]
        | none =>
            by_cases hc : cur = "firing"
            · have hstep : transStep (cur, acc) a = (cur, acc) := by
                unfold transStep
                simp [hr, hc]
              rw [hstep, ih]
              simp [specTransitions, hf, hr, hc]
            · have hs : a.state ≠ "firing" := fun h => hf ⟨hc, h⟩
              have hstep : transStep (cur, acc) a = (cur, acc) := by
                unfold transStep
                simp [hr, hs]
              rw [hstep, ih]
              simp [specTransitions, hf, hr, hc, hs]

/-- Counterexample to claim C2 as stated: on a resolved episode whose
recorded state is "inactive" (exactly the shape the Prometheus
reconstruction produces for closed episodes), the code emits no transition
at all, while the claimed walk (which fires whenever the tracked state is
not "firing", ignoring the episode's recorded state) emits two. -/
theorem c2_counterexample :
    detectStateTransitions [inactiveEpisode] = [] ∧
    claimedTransitions "inactive" [inactiveEpisode] =
      [⟨"AlertA", 0, "inactive", "firing"⟩,
       ⟨"AlertA", 300000000000, "firing", "resolved"⟩] ∧
    detectStateTransitions [inactiveEpisode] ≠ claimedTransitions "inactive" [inactiveEpisode] := by
  refine ⟨by decide, by decide, by decide⟩

/-- Claim C2 (amended): the transition detection walks the episode list
with a tracked state initially "inactive" and, for each episode, emits
(current → "firing") at fired_at exactly when the tracked state is not
"firing" *and the episode's recorded state is "firing"*, then emits
("firing" → "resolved") at the resolution time exactly when the episode
carries one and the tracked state is "firing"; no other transitions are
emitted. -/
theorem c2_transitions_amended (alerts : List Alert) :
    detectStateTransitions alerts = specTransitions "inactive" alerts := by
  unfold detectStateTransitions
  rw [foldl_transStep_spec]
  simp

/-! ### Helper lemmas: grouping -/

theorem upsertGroup_sizes (gs : List (String × List Alert)) (name : String) (a : Alert) :
    ((upsertGroup gs name a).map (fun p => p.2.length)).sum =
      (gs.map (fun p => p.2.length)).sum + 1 := by
  induction gs with
  | nil => simp [upsertGroup]
  | cons q gs ih =>
      obtain ⟨k, as⟩ := q
      unfold upsertGroup
      by_cases hk : k = name
      · simp [hk]
        omega
      · simp only [if_neg hk, List.map_cons, List.sum_cons, ih]
        omega

theorem foldl_upsert_sizes (l : List Alert) :
    ∀ gs : List (String × List Alert),
      (((l.foldl (fun gs a => upsertGroup gs a.name a) gs)).map (fun p => p.2.length)).sum =
        (gs.map (fun p => p.2.length)).sum + l.length := by
  induction l with
  | nil => intro gs; simp
  | cons a l ih =>
      intro gs
      rw [List.foldl_cons, ih, upsertGroup_sizes]
      simp [Nat.add_assoc, Nat.add_comm 1 l.length]

theorem groupAlertsByName_sizes (alerts : List Alert) :
    ((groupAlertsByName alerts).map (fun p => p.2.length)).sum = alerts.length := by
  unfold groupAlertsByName
  rw [foldl_upsert_sizes]
  simp

theorem mem_snd_upsertGroup {gs : List (String × List Alert)} {name : String} {a : Alert}
    {p : String × List Alert} {x : Alert}
    (hp : p ∈ upsertGroup gs name a) (hx : x ∈ p.2) :
    (∃ q ∈ gs, x ∈ q.2) ∨ x = a := by
  induction gs with
  | nil =>
      simp [upsertGroup] at hp
      subst hp
      simp at hx
      exact Or.inr hx
  | cons q gs ih =>
      obtain ⟨k, as⟩ := q
      unfold upsertGroup at hp
      by_cases hk : k = name
      · rw [if_pos hk] at hp
        rcases List.mem_cons.mp hp with h | h
        · subst h
          simp at hx
          rcases hx with hx | hx
          · exact Or.inl ⟨(k, as), List.mem_cons_self _ _, hx⟩
          · exact Or.inr hx
        · exact Or.inl ⟨p, List.mem_cons_of_mem _ h, hx⟩
      · rw [if_neg hk] at hp
        rcases List.mem_cons.mp hp with h | h
        · subst h
          exact Or.inl ⟨(k, as), List.mem_cons_self _ _, hx⟩
        · rcases ih h with ⟨q, hq, hxq⟩ | h2
          · exact Or.inl ⟨q, List.mem_cons_of_mem _ hq, hxq⟩
          · exact Or.inr h2

theorem snd_upsertGroup_ne_nil {gs : List (String × List Alert)} {name : String} {a : Alert}
    {p : String × List Alert}
    (hgs : ∀ q ∈ gs, q.2 ≠ []) (hp : p ∈ upsertGroup gs name a) : p.2 ≠ [] := by
  induction gs with
  | nil =>
      simp [upsertGroup] at hp
      subst hp
      simp
  | cons q gs ih =>
      obtain ⟨k, as⟩ := q
      unfold upsertGroup at hp
      by_cases hk : k = name
      · rw [if_pos hk] at hp
        rcases List.mem_cons.mp hp with h | h
        · subst h; simp
        · exact hgs p (List.mem_cons_of_mem _ h)
      · rw [if_neg hk] at hp
        rcases List.mem_cons.mp hp with h | h
        · subst h
          exact hgs (k, as) (List.mem_cons_self _ _)
        · exact ih (fun q hq => hgs q (List.mem_cons_of_mem _ hq)) h

theorem foldl_upsert_mem_snd (l : List Alert) :
    ∀ (gs : List (String × List Alert)) (p : String × List Alert) (x : Alert),
      p ∈ l.foldl (fun gs a => upsertGroup gs a.name a) gs → x ∈ p.2 →
      (∃ q ∈ gs, x ∈ q.2) ∨ x ∈ l := by
  induction l with
  | nil =>
      intro gs p x hp hx
      exact Or.inl ⟨p, hp, hx⟩
  | cons a l ih =>
      intro gs p x hp hx
      rw [List.foldl_cons] at hp
      rcases ih _ p x hp hx with ⟨q, hq, hxq⟩ | h
      · rcases mem_snd_upsertGroup hq hxq with ⟨q2, hq2, hxq2⟩ | h2
        · exact Or.inl ⟨q2, hq2, hxq2⟩
        · exact Or.inr (by simp [h2])
      · exact Or.inr (List.mem_cons_of_mem _ h)

theorem foldl_upsert_ne_nil (l : List Alert) :
    ∀ gs : List (String × List Alert), (∀ q ∈ gs, q.2 ≠ []) →
      ∀ p ∈ l.foldl (fun gs a => upsertGroup gs a.name a) gs, p.2 ≠ [] := by
  induction l with
  | nil => intro gs hgs p hp; exact hgs p hp
  | cons a l ih =>
      intro gs hgs p hp
      rw [List.foldl_cons] at hp
      exact ih _ (fun q hq => snd_upsertGroup_ne_nil hgs hq) p hp

theorem mem_groupAlertsByName_snd {alerts : List Alert} {p : String × List Alert} {x : Alert}
    (hp : p ∈ groupAlertsByName alerts) (hx : x ∈ p.2) : x ∈ alerts := by
  rcases foldl_upsert_mem_snd alerts [] p x hp hx with ⟨q, hq, -⟩ | h
  · simp at hq
  · exact h

theorem groupAlertsByName_snd_ne_nil {alerts : List Alert} {p : String × List Alert}
    (hp : p ∈ groupAlertsByName alerts) : p.2 ≠ [] := by
  refine foldl_upsert_ne_nil alerts [] ?_ p hp
  intro q hq
  simp at hq

theorem upsertGroup_keys (gs : List (String × List Alert)) (name : String) (a : Alert) :
    (upsertGroup gs name a).map Prod.fst =
      if name ∈ gs.map Prod.fst then gs.map Prod.fst else gs.map Prod.fst ++ [name] := by
  induction gs with
  | nil => simp [upsertGroup]
  | cons q gs ih =>
      obtain ⟨k, as⟩ := q
      unfold upsertGroup
      by_cases hk : k = name
      · simp [hk]
      · have hne : name ≠ k := fun h => hk h.symm
        simp only [if_neg hk, List.map_cons, ih]
        by_cases hm : name ∈ gs.map Prod.fst
        · simp [hm, hne]
        · simp [hm, hne]

theorem foldl_upsert_keys_nodup (l : List Alert) :
    ∀ gs : List (String × List Alert), (gs.map Prod.fst).Nodup →
      ((l.foldl (fun gs a => upsertGroup gs a.name a) gs).map Prod.fst).Nodup := by
  induction l with
  | nil => intro gs h; exact h
  | cons a l ih =>
      intro gs h
      rw [List.foldl_cons]
      refine ih _ ?_
      rw [upsertGroup_keys]
      by_cases hm : a.name ∈ gs.map Prod.fst
      · simpa [hm] using h
      · rw [if_neg hm]
        refine List.Nodup.append h (List.nodup_singleton _) ?_
        intro x hx hx2
        simp at hx2
        subst hx2
        exact hm hx

theorem groupAlertsByName_keys_nodup (alerts : List Alert) :
    ((groupAlertsByName alerts).map Prod.fst).Nodup := by
  exact foldl_upsert_keys_nodup alerts [] (by simp)

theorem foldl_upsert_keys_mem (l : List Alert) :
    ∀ (gs : List (String × List Alert)) (m : String),
      m ∈ (l.foldl (fun gs a => upsertGroup gs a.name a) gs).map Prod.fst ↔
        m ∈ gs.map Prod.fst ∨ m ∈ l.map Alert.name := by
  induction l with
  | nil => intro gs m; simp
  | cons a l ih =>
      intro gs m
      rw [List.foldl_cons, ih, upsertGroup_keys]
      by_cases hm : a.name ∈ gs.map Prod.fst
      · rw [if_pos hm]
        constructor
        · rintro (h | h)
          · exact Or.inl h
          · exact Or.inr (by simp [h])
        · rintro (h | h)
          · exact Or.inl h
          · simp at h
            rcases h with h | h
            · exact Or.inl (h ▸ hm)
            · exact Or.inr (by simpa using h)
      · rw [if_neg hm]
        constructor
        · rintro (h | h)
          · rcases List.mem_append.mp h with h2 | h2
            · exact Or.inl h2
            · simp at h2
              exact Or.inr (by simp [h2])
          · exact Or.inr (by simp [h])
        · rintro (h | h)
          · exact Or.inl (List.mem_append.mpr (Or.inl h))
          · simp at h
            rcases h with h | h
            · exact Or.inl (List.mem_append.mpr (Or.inr (by simp [h])))
            · exact Or.inr (by simpa using h)

theorem groupAlertsByName_keys_mem (alerts : List Alert) (m : String) :
    m ∈ (groupAlertsByName alerts).map Prod.fst ↔ m ∈ alerts.map Alert.name := by
  unfold groupAlertsByName
  rw [foldl_upsert_keys_mem]
  simp

/-! ### Helper lemmas: the frequency fold -/

theorem foldl_freqStep_count (now : Int) (as : List Alert) :
    ∀ acc : FreqAcc, (as.foldl (freqStep now) acc).firingCount = acc.firingCount + as.length := by
  induction as with
  | nil => intro acc; simp
  | cons a as ih =>
      intro acc
      rw [List.foldl_cons, ih]
      simp [freqStep]
      omega

theorem foldl_freqStep_total (now : Int) (as : List Alert) :
    ∀ acc : FreqAcc,
      (as.foldl (freqStep now) acc).totalTime =
        acc.totalTime + (as.map (fun a => a.duration now)).sum := by
  induction as with
  | nil => intro acc; simp
  | cons a as ih =>
      intro acc
      rw [List.foldl_cons, ih]
      simp [freqStep]
      ring

theorem frequencyAnalyzeAlertGroup_count (now : Int) (nm : String) (as : List Alert) :
    (frequencyAnalyzeAlertGroup now nm as).firingCount = as.length := by
  unfold frequencyAnalyzeAlertGroup
  simp [foldl_freqStep_count]

theorem frequencyAnalyzeAlertGroup_total (now : Int) (nm : String) (as : List Alert) :
    (frequencyAnalyzeAlertGroup now nm as).totalTime =
      (as.map (fun a => a.duration now)).sum := by
  unfold frequencyAnalyzeAlertGroup
  simp [foldl_freqStep_total]

/-- Claim C5: over every non-empty history, the firing counts returned by
the frequency analysis sum to the total episode count, whatever iteration
order Go chooses for the grouped map. -/
theorem c5_firing_count_sum (h : AlertHistory) (now : Int)
    (g : List (String × List Alert))
    (hg : g.Perm (groupAlertsByName h.alerts)) (hne : h.alerts ≠ []) :
    ∃ rs, frequencyAnalyze (some h) g now = some rs ∧
      (rs.map (fun r => r.firingCount)).sum = h.alerts.length := by
  refine ⟨frequencyAnalyzeOf g now, rfl, ?_⟩
  unfold frequencyAnalyzeOf
  have hperm : (List.insertionSort freqGE
      (g.map (fun p => frequencyAnalyzeAlertGroup now p.1 p.2))).Perm
      (g.map (fun p => frequencyAnalyzeAlertGroup now p.1 p.2)) :=
    List.perm_insertionSort freqGE _
  rw [((hperm.map (fun r => r.firingCount)).sum_eq : _)]
  have hmapmap : ((g.map (fun p => frequencyAnalyzeAlertGroup now p.1 p.2)).map
      (fun r => r.firingCount)) = g.map (fun p => p.2.length) := by
    rw [List.map_map]
    refine List.map_congr_left ?_
    intro p _
    simp [frequencyAnalyzeAlertGroup_count]
  rw [hmapmap, ((hg.map (fun p => p.2.length)).sum_eq : _), groupAlertsByName_sizes]

/-- Witness for C5 on a three-episode, two-identity history. -/
theorem c5_witness :
    ∃ rs, frequencyAnalyze (some hTwo) (groupAlertsByName hTwo.alerts) 0 = some rs ∧
      (rs.map (fun r => r.firingCount)).sum = hTwo.alerts.length :=
  c5_firing_count_sum hTwo 0 (groupAlertsByName hTwo.alerts) (List.Perm.refl _) (by decide)

/-! ### Helper lemma: sign of durations -/

theorem duration_nonneg_of_ok {now : Int} {a : Alert}
    (h : alertDurationOkB now a = true) : 0 ≤ a.duration now := by
  cases hra : a.resolvedAt with
  | some r =>
      simp [alertDurationOkB, hra] at h
      simp [Alert.duration, hra]
      omega
  | none =>
      simp [alertDurationOkB, hra] at h
      simp [Alert.duration, hra]
      omega

/-- Counterexample to claim C9 as stated: the analyzer imposes no
well-formedness on its input, so an episode whose recorded resolution
precedes its fired time produces a strictly negative `TotalTime`. -/
theorem c9_counterexample :
    frequencyAnalyze (some hNeg) (groupAlertsByName hNeg.alerts) 0 =
      some [{ alertName := "Bad"
              firingCount := 1
              totalTime := -(10 * nsPerSec)
              avgDuration := -(10 * nsPerSec)
              lastFired := 10 * nsPerSec
              severity := "unknown" }] ∧
    ¬ (0 : Int) ≤ -(10 * nsPerSec) := by
  exact ⟨by decide, by decide⟩

/-- Claim C9 (amended): every frequency result has a firing count of at
least one, unconditionally; its total time is non-negative provided every
episode of the history is well-formed (resolution not before fired time,
and open episodes fired no later than the evaluation instant). -/
theorem c9_amended (h : AlertHistory) (now : Int) (g : List (String × List Alert))
    (hg : g.Perm (groupAlertsByName h.alerts)) :
    ∀ rs, frequencyAnalyze (some h) g now = some rs →
      ∀ r ∈ rs, 1 ≤ r.firingCount ∧
        ((∀ a ∈ h.alerts, alertDurationOkB now a = true) → 0 ≤ r.totalTime) := by
  intro rs hrs r hr
  have hrs2 : rs = frequencyAnalyzeOf g now := by
    simpa [frequencyAnalyze] using hrs.symm
  subst hrs2
  unfold frequencyAnalyzeOf at hr
  have hr2 : r ∈ g.map (fun p => frequencyAnalyzeAlertGroup now p.1 p.2) :=
    (List.perm_insertionSort freqGE _).mem_iff.mp hr
  obtain ⟨p, hp, hrp⟩ := List.mem_map.mp hr2
  have hpg : p ∈ groupAlertsByName h.alerts := hg.mem_iff.mp hp
  subst hrp
  constructor
  · rw [frequencyAnalyzeAlertGroup_count]
    have hne := groupAlertsByName_snd_ne_nil hpg
    cases hsnd : p.2 with
    | nil => exact absurd hsnd hne
    | cons x xs => simp [hsnd]
  · intro hwf
    rw [frequencyAnalyzeAlertGroup_total]
    refine List.sum_nonneg ?_
    intro d hd
    obtain ⟨a, ha, had⟩ := List.mem_map.mp hd
    have hah : a ∈ h.alerts := mem_groupAlertsByName_snd hpg ha
    rw [← had]
    exact duration_nonneg_of_ok (hwf a hah)

/-- Witness for C9 on a two-episode identity of `hTwo`. -/
theorem c9_witness :
    1 ≤ (frequencyAnalyzeAlertGroup nsPerHour "AlertA"
          [mkEpisode "AlertA" 0 nsPerSec,
           mkEpisode "AlertA" (2 * nsPerSec) (3 * nsPerSec)]).firingCount ∧
    0 ≤ (frequencyAnalyzeAlertGroup nsPerHour "AlertA"
          [mkEpisode "AlertA" 0 nsPerSec,
           mkEpisode "AlertA" (2 * nsPerSec) (3 * nsPerSec)]).totalTime := by
  have h := c9_amended hTwo nsPerHour (groupAlertsByName hTwo.alerts) (List.Perm.refl _)
  have h2 := h _ rfl
    (frequencyAnalyzeAlertGroup nsPerHour "AlertA"
      [mkEpisode "AlertA" 0 nsPerSec, mkEpisode "AlertA" (2 * nsPerSec) (3 * nsPerSec)])
    (by decide)
  exact ⟨h2.1, h2.2 (by decide)⟩

/-- Claim C3: every flapping result's score equals its transition count
divided by the hours of the analysis window (with one hour substituted for
a non-positive window), and the flapping flag holds exactly when the score
reaches the analyzer's threshold — for every iteration order of the
grouped map. -/
theorem c3_flapping_score (h : AlertHistory) (threshold : ℚ) (now : Int)
    (g : List (String × List Alert)) (hg : g.Perm (groupAlertsByName h.alerts)) :
    ∀ r ∈ flappingAnalyze (some h) threshold g now,
      r.flappingScore = (r.transitionCount : ℚ) / effectiveHours h ∧
      (r.isFlapping = true ↔ r.flappingScore ≥ threshold) := by
  intro r hr
  simp only [flappingAnalyze] at hr
  by_cases hlen : h.alerts.length = 0
  · rw [if_pos hlen] at hr
    simp at hr
  · rw [if_neg hlen] at hr
    have hr2 := (List.perm_insertionSort flapGE _).mem_iff.mp hr
    obtain ⟨p, hp, hrp⟩ := List.mem_map.mp hr2
    have hpg : p ∈ groupAlertsByName h.alerts := hg.mem_iff.mp hp
    have hpne : p.2.length ≠ 0 := by
      have := groupAlertsByName_snd_ne_nil hpg
      simpa [List.length_eq_zero] using this
    subst hrp
    unfold flappingAnalyzeAlertGroup
    rw [if_neg hpne]
    constructor
    · simp [effectiveHours]
    · simp

/-- Witness for C3 on the single-open-episode history `hOpen`. -/
theorem c3_witness :
    (flappingAnalyzeAlertGroup 3 0 "OpenAlert" [openEpisode] (analysisPeriodOf hOpen)).flappingScore
      = ((flappingAnalyzeAlertGroup 3 0 "OpenAlert" [openEpisode]
          (analysisPeriodOf hOpen)).transitionCount : ℚ) / effectiveHours hOpen ∧
    ((flappingAnalyzeAlertGroup 3 0 "OpenAlert" [openEpisode]
        (analysisPeriodOf hOpen)).isFlapping = true ↔
      (flappingAnalyzeAlertGroup 3 0 "OpenAlert" [openEpisode]
        (analysisPeriodOf hOpen)).flappingScore ≥ 3) := by
  have h := c3_flapping_score hOpen 3 0 (groupAlertsByName hOpen.alerts) (List.Perm.refl _)
  have hmem : flappingAnalyzeAlertGroup 3 0 "OpenAlert" [openEpisode] (analysisPeriodOf hOpen)
      ∈ flappingAnalyze (some hOpen) 3 (groupAlertsByName hOpen.alerts) 0 := by
    have heq : flappingAnalyze (some hOpen) 3 (groupAlertsByName hOpen.alerts) 0 =
        [flappingAnalyzeAlertGroup 3 0 "OpenAlert" [openEpisode] (analysisPeriodOf hOpen)] := rfl
    rw [heq]
    exact List.mem_singleton_self _
  exact h _ hmem

/-- Counterexample to claim C4 as stated: `FrequencyAnalyzer.Analyze` (and
`GetSummaryStats`, which calls it) dereferences the history pointer without
a nil check, so a nil history panics instead of returning the claimed empty
result list — unlike the flapping analyzer, which guards against nil. -/
theorem c4_counterexample :
    frequencyAnalyze none [] 0 = none ∧
    getSummaryStats none [] 0 = none ∧
    frequencyAnalyze none [] 0 ≠ some [] := by
  exact ⟨rfl, rfl, by decide⟩

/-- Claim C4 (amended): on an *empty* history both analyses return an
empty result list and a zeroed summary (the flapping summary carrying only
the threshold), and the flapping analysis also tolerates a nil history the
same way; the frequency analysis, however, panics on nil. -/
theorem c4_empty_amended (h : AlertHistory) (threshold : ℚ)
    (g : List (String × List Alert)) (now : Int)
    (hempty : h.alerts = []) (hg : g.Perm (groupAlertsByName h.alerts)) :
    frequencyAnalyze (some h) g now = some [] ∧
    getSummaryStats (some h) g now = some ⟨0, 0, 0, 0, 0, "", ""⟩ ∧
    flappingAnalyze none threshold g now = [] ∧
    flappingAnalyze (some h) threshold g now = [] ∧
    getFlappingSummary none threshold g now = ⟨0, 0, 0, 0, "", threshold⟩ ∧
    getFlappingSummary (some h) threshold g now = ⟨0, 0, 0, 0, "", threshold⟩ := by
  have hgnil : g = [] := by
    rw [hempty] at hg
    exact hg.eq_nil
  subst hgnil
  refine ⟨rfl, rfl, rfl, ?_, rfl, ?_⟩
  · simp [flappingAnalyze, hempty]
  · simp [getFlappingSummary, flappingAnalyze, hempty]

/-- Witness for C4 (amended) on the concrete empty history. -/
theorem c4_witness :
    frequencyAnalyze (some hEmpty) [] 0 = some [] ∧
    getSummaryStats (some hEmpty) [] 0 = some ⟨0, 0, 0, 0, 0, "", ""⟩ ∧
    flappingAnalyze none 3 [] 0 = [] ∧
    flappingAnalyze (some hEmpty) 3 [] 0 = [] ∧
    getFlappingSummary none 3 [] 0 = ⟨0, 0, 0, 0, "", 3⟩ ∧
    getFlappingSummary (some hEmpty) 3 [] 0 = ⟨0, 0, 0, 0, "", 3⟩ :=
  c4_empty_amended hEmpty 3 [] 0 rfl List.Perm.nil

/-- Claim C10: for `n ≥ 0`, both analyzers' AnalyzeTopN return the first
`min(n, available)` entries of the ranked list — in particular all entries
when `n` exceeds the number of identities — while a negative `n` makes the
slice expression `allResults[:n]` panic (modelled by `none`). -/
theorem c10_topn (h : AlertHistory) (threshold : ℚ) (g : List (String × List Alert))
    (now : Int) (n : Int) :
    (0 ≤ n →
      frequencyAnalyzeTopN (some h) g now n =
        some ((frequencyAnalyzeOf g now).take n.toNat) ∧
      flappingAnalyzeTopN (some h) threshold g now n =
        some ((flappingAnalyze (some h) threshold g now).take n.toNat)) ∧
    (n < 0 →
      frequencyAnalyzeTopN (some h) g now n = none ∧
      flappingAnalyzeTopN (some h) threshold g now n = none) := by
  constructor
  · intro hn
    constructor
    · simp only [frequencyAnalyzeTopN, frequencyAnalyze]
      by_cases hgt : n > ((frequencyAnalyzeOf g now).length : Int)
      · rw [if_pos hgt, if_neg (by omega)]
        have h2 : (frequencyAnalyzeOf g now).length ≤ n.toNat := by omega
        rw [Int.toNat_natCast, List.take_length, List.take_of_length_le h2]
      · rw [if_neg hgt, if_neg (by omega)]
    · simp only [flappingAnalyzeTopN]
      by_cases hgt : n > ((flappingAnalyze (some h) threshold g now).length : Int)
      · rw [if_pos hgt, if_neg (by omega)]
        have h2 : (flappingAnalyze (some h) threshold g now).length ≤ n.toNat := by omega
        rw [Int.toNat_natCast, List.take_length, List.take_of_length_le h2]
      · rw [if_neg hgt, if_neg (by omega)]
  · intro hn
    constructor
    · simp only [frequencyAnalyzeTopN, frequencyAnalyze]
      have hgt : ¬ n > ((frequencyAnalyzeOf g now).length : Int) := by omega
      rw [if_neg hgt, if_pos hn]
    · simp only [flappingAnalyzeTopN]
      have hgt : ¬ n > ((flappingAnalyze (some h) threshold g now).length : Int) := by omega
      rw [if_neg hgt, if_pos hn]

/-- Witness for C10: `n = 5` exceeds the two identities of `hTwo` and
returns everything; `n = -1` panics. -/
theorem c10_witness :
    frequencyAnalyzeTopN (some hTwo) (groupAlertsByName hTwo.alerts) 0 5 =
      some ((frequencyAnalyzeOf (groupAlertsByName hTwo.alerts) 0).take (5 : Int).toNat) ∧
    flappingAnalyzeTopN (some hTwo) 3 (groupAlertsByName hTwo.alerts) 0 (-1) = none := by
  have h1 := (c10_topn hTwo 3 (groupAlertsByName hTwo.alerts) 0 5).1 (by norm_num)
  have h2 := (c10_topn hTwo 3 (groupAlertsByName hTwo.alerts) 0 (-1)).2 (by norm_num)
  exact ⟨h1.1, h2.2⟩

/-! ### Helper lemmas: clock independence for resolved episodes -/

theorem duration_eq_of_resolved {a : Alert} (h : a.resolvedAt ≠ none) (n1 n2 : Int) :
    a.duration n1 = a.duration n2 := by
  cases hra : a.resolvedAt with
  | some r => simp [Alert.duration, hra]
  | none => exact absurd hra h

theorem foldl_freqStep_congr (n1 n2 : Int) (as : List Alert)
    (h : ∀ a ∈ as, a.resolvedAt ≠ none) :
    ∀ acc : FreqAcc, as.foldl (freqStep n1) acc = as.foldl (freqStep n2) acc := by
  induction as with
  | nil => intro acc; rfl
  | cons a as ih =>
      intro acc
      rw [List.foldl_cons, List.foldl_cons]
      have hstep : freqStep n1 acc a = freqStep n2 acc a := by
        unfold freqStep
        rw [duration_eq_of_resolved (h a (List.mem_cons_self _ _)) n1 n2]
      rw [hstep]
      exact ih (fun a ha => h a (List.mem_cons_of_mem _ ha)) _

theorem frequencyAnalyzeAlertGroup_congr (n1 n2 : Int) (nm : String) (as : List Alert)
    (h : ∀ a ∈ as, a.resolvedAt ≠ none) :
    frequencyAnalyzeAlertGroup n1 nm as = frequencyAnalyzeAlertGroup n2 nm as := by
  unfold frequencyAnalyzeAlertGroup
  rw [foldl_freqStep_congr n1 n2 as h]

theorem calculateDurations_congr (n1 n2 : Int) (alerts : List Alert)
    (ts : List StateTransition) (h : ∀ a ∈ alerts, a.resolvedAt ≠ none) :
    calculateDurations n1 alerts ts = calculateDurations n2 alerts ts := by
  unfold calculateDurations
  have hmap : alerts.map (fun a => a.duration n1) = alerts.map (fun a => a.duration n2) :=
    List.map_congr_left (fun a ha => duration_eq_of_resolved (h a ha) n1 n2)
  rw [hmap]

theorem flappingAnalyzeAlertGroup_congr (threshold : ℚ) (n1 n2 : Int) (nm : String)
    (as : List Alert) (period : Int) (h : ∀ a ∈ as, a.resolvedAt ≠ none) :
    flappingAnalyzeAlertGroup threshold n1 nm as period =
      flappingAnalyzeAlertGroup threshold n2 nm as period := by
  unfold flappingAnalyzeAlertGroup
  by_cases hlen : as.length = 0
  · rw [if_pos hlen, if_pos hlen]
  · rw [if_neg hlen, if_neg hlen]
    have hsorted : ∀ a ∈ List.insertionSort firedLE as, a.resolvedAt ≠ none := by
      intro a ha
      exact h a ((List.mem_insertionSort firedLE).mp ha)
    have hcd := calculateDurations_congr n1 n2 (List.insertionSort firedLE as)
      (detectStateTransitions (List.insertionSort firedLE as)) hsorted
    simp only [hcd]

/-- Counterexample to claim C7 as stated: `Alert.Duration` uses
`time.Since` for unresolved episodes, so two calls of the same analyzer on
the same unmutated history — evaluated one second apart — return different
total and average durations for an identity with an open episode. -/
theorem c7_counterexample :
    frequencyAnalyze (some hOpen) (groupAlertsByName hOpen.alerts) nsPerSec =
      some [{ alertName := "OpenAlert"
              firingCount := 1
              totalTime := nsPerSec
              avgDuration := nsPerSec
              lastFired := 0
              severity := "warning" }] ∧
    frequencyAnalyze (some hOpen) (groupAlertsByName hOpen.alerts) (2 * nsPerSec) =
      some [{ alertName := "OpenAlert"
              firingCount := 1
              totalTime := 2 * nsPerSec
              avgDuration := 2 * nsPerSec
              lastFired := 0
              severity := "warning" }] ∧
    frequencyAnalyze (some hOpen) (groupAlertsByName hOpen.alerts) nsPerSec ≠
      frequencyAnalyze (some hOpen) (groupAlertsByName hOpen.alerts) (2 * nsPerSec) := by
  exact ⟨by decide, by decide, by decide⟩

/-- Claim C7 (amended): two calls of the same analyzer on the same
unmutated history return identical values provided the grouped map is
ranged over in the same order in both calls and every episode of the
history is resolved; with an open episode the durations depend on the
wall-clock instant of the call. -/
theorem c7_idempotent_amended (h : AlertHistory) (threshold : ℚ)
    (g : List (String × List Alert)) (now1 now2 : Int)
    (hg : g.Perm (groupAlertsByName h.alerts))
    (hres : ∀ a ∈ h.alerts, a.resolvedAt ≠ none) :
    frequencyAnalyze (some h) g now1 = frequencyAnalyze (some h) g now2 ∧
    flappingAnalyze (some h) threshold g now1 = flappingAnalyze (some h) threshold g now2 := by
  have hgrp : ∀ p ∈ g, ∀ a ∈ p.2, a.resolvedAt ≠ none := by
    intro p hp a ha
    exact hres a (mem_groupAlertsByName_snd (hg.mem_iff.mp hp) ha)
  constructor
  · simp only [frequencyAnalyze, frequencyAnalyzeOf]
    congr 1
    congr 1
    refine List.map_congr_left ?_
    intro p hp
    exact frequencyAnalyzeAlertGroup_congr now1 now2 p.1 p.2 (hgrp p hp)
  · simp only [flappingAnalyze]
    by_cases hlen : h.alerts.length = 0
    · rw [if_pos hlen, if_pos hlen]
    · rw [if_neg hlen, if_neg hlen]
      congr 1
      refine List.map_congr_left ?_
      intro p hp
      exact flappingAnalyzeAlertGroup_congr threshold now1 now2 p.1 p.2 _ (hgrp p hp)

/-- Witness for C7 (amended) on the fully-resolved history `hTwo`,
evaluated at two instants an hour apart. -/
theorem c7_witness :
    frequencyAnalyze (some hTwo) (groupAlertsByName hTwo.alerts) 0 =
      frequencyAnalyze (some hTwo) (groupAlertsByName hTwo.alerts) nsPerHour ∧
    flappingAnalyze (some hTwo) 3 (groupAlertsByName hTwo.alerts) 0 =
      flappingAnalyze (some hTwo) 3 (groupAlertsByName hTwo.alerts) nsPerHour :=
  c7_idempotent_amended hTwo 3 (groupAlertsByName hTwo.alerts) 0 nsPerHour
    (List.Perm.refl _) (by decide)

/-- Counterexample to claim C8 as stated: with two identities tied on
firing count, the pre-sort order of the results is the order in which Go's
randomized map iteration delivers the groups, not discovery order — ranging
over the grouped map of `hTie` in swapped order is a legal iteration and
makes the tie come out against discovery order. -/
theorem c8_counterexample :
    gTieSwapped.Perm (groupAlertsByName hTie.alerts) ∧
    ((frequencyAnalyze (some hTie) gTieSwapped 0).getD []).map (fun r => r.alertName) =
      ["BAlert", "AAlert"] ∧
    ((frequencyAnalyze (some hTie) (groupAlertsByName hTie.alerts) 0).getD []).map
        (fun r => r.alertName) = ["AAlert", "BAlert"] ∧
    (["BAlert", "AAlert"] : List String) ≠ ["AAlert", "BAlert"] := by
  exact ⟨by decide, by decide, by decide, by decide⟩

/-- Claim C8 (amended): for every iteration order of the grouped map, the
frequency analysis returns exactly one result per distinct identity name,
ordered by non-increasing firing count (the order of tied identities
follows the unspecified map iteration order), and the flapping analysis
output is ordered by non-increasing flapping score. -/
theorem c8_ordering_amended (h : AlertHistory) (threshold : ℚ) (now : Int)
    (g : List (String × List Alert)) (hg : g.Perm (groupAlertsByName h.alerts)) :
    (∀ rs, frequencyAnalyze (some h) g now = some rs →
      List.Sorted freqGE rs ∧
      (rs.map (fun r => r.alertName)).Nodup ∧
      (∀ nm, nm ∈ rs.map (fun r => r.alertName) ↔ nm ∈ h.alerts.map Alert.name)) ∧
    List.Sorted flapGE (flappingAnalyze (some h) threshold g now) := by
  constructor
  · intro rs hrs
    have hrs2 : rs = frequencyAnalyzeOf g now := by
      simpa [frequencyAnalyze] using hrs.symm
    subst hrs2
    have hnames : ((frequencyAnalyzeOf g now).map (fun r => r.alertName)).Perm
        ((groupAlertsByName h.alerts).map Prod.fst) := by
      have hperm := (List.perm_insertionSort freqGE
        (g.map (fun p => frequencyAnalyzeAlertGroup now p.1 p.2))).map (fun r => r.alertName)
      have heq : (g.map (fun p => frequencyAnalyzeAlertGroup now p.1 p.2)).map
          (fun r => r.alertName) = g.map Prod.fst := by
        rw [List.map_map]
        exact List.map_congr_left (fun p _ => rfl)
      rw [heq] at hperm
      exact hperm.trans (hg.map Prod.fst)
    refine ⟨List.sorted_insertionSort freqGE _, ?_, ?_⟩
    · exact hnames.nodup_iff.mpr (groupAlertsByName_keys_nodup _)
    · intro nm
      rw [hnames.mem_iff, groupAlertsByName_keys_mem]
  · simp only [flappingAnalyze]
    by_cases hlen : h.alerts.length = 0
    · rw [if_pos hlen]
      exact List.sorted_nil
    · rw [if_neg hlen]
      exact List.sorted_insertionSort flapGE _

/-- Witness for C8 (amended) on `hTwo` in discovery order. -/
theorem c8_witness :
    List.Sorted freqGE (frequencyAnalyzeOf (groupAlertsByName hTwo.alerts) 0) ∧
    List.Sorted flapGE (flappingAnalyze (some hTwo) 3 (groupAlertsByName hTwo.alerts) 0) := by
  have h := c8_ordering_amended hTwo 3 0 (groupAlertsByName hTwo.alerts) (List.Perm.refl _)
  exact ⟨(h.1 _ rfl).1, h.2⟩

/-! ### Helper lemmas: ordering of truncated division and sample times -/

theorem tdiv_le_tdiv_of_le {x y k : Int} (hk : 0 < k) (h : x ≤ y) :
    x.tdiv k ≤ y.tdiv k := by
  rcases le_or_lt 0 x with hx | hx
  · have hy : 0 ≤ y := le_trans hx h
    rw [Int.tdiv_eq_ediv hx hk.le, Int.tdiv_eq_ediv hy hk.le]
    exact Int.ediv_le_ediv hk h
  · rcases le_or_lt 0 y with hy | hy
    · have h2 : 0 ≤ (-x).tdiv k := Int.tdiv_nonneg (by omega) hk.le
      rw [Int.neg_tdiv] at h2
      have h3 : 0 ≤ y.tdiv k := Int.tdiv_nonneg hy hk.le
      omega
    · have e1 : (-x).tdiv k = -(x.tdiv k) := Int.neg_tdiv x k
      have e2 : (-y).tdiv k = -(y.tdiv k) := Int.neg_tdiv y k
      have h4 : (-y).tdiv k ≤ (-x).tdiv k := by
        rw [Int.tdiv_eq_ediv (by omega) hk.le, Int.tdiv_eq_ediv (by omega) hk.le]
        exact Int.ediv_le_ediv hk (by omega)
      omega

theorem sampleTime_mono {x y : Int} (h : x ≤ y) : sampleTime x ≤ sampleTime y := by
  unfold sampleTime nsPerSec
  have h2 := tdiv_le_tdiv_of_le (show (0 : Int) < 1000 by norm_num) h
  exact mul_le_mul_of_nonneg_right h2 (by norm_num)

/-! ### Helper lemmas: the alert map of parseAlerts -/

theorem lookup_mem {m : AlertMap} {k : String} {v : Alert}
    (h : m.lookup k = some v) : (k, v) ∈ m := by
  induction m with
  | nil => simp [List.lookup] at h
  | cons q m ih =>
      obtain ⟨q1, q2⟩ := q
      by_cases hk : k = q1
      · subst hk
        simp [List.lookup] at h
        rw [← h]
        exact List.mem_cons_self _ _
      · have hb : (k == q1) = false := by simpa using hk
        rw [List.lookup, hb] at h
        exact List.mem_cons_of_mem _ (ih h)

theorem setAlert_mem {m : AlertMap} {k : String} {a : Alert} {p : String × Alert}
    (hp : p ∈ setAlert m k a) : p = (k, a) ∨ p ∈ m := by
  induction m with
  | nil =>
      simp [setAlert] at hp
      exact Or.inl hp
  | cons q m ih =>
      obtain ⟨q1, q2⟩ := q
      unfold setAlert at hp
      by_cases hk : q1 = k
      · rw [if_pos hk] at hp
        rcases List.mem_cons.mp hp with h | h
        · exact Or.inl h
        · exact Or.inr (List.mem_cons_of_mem _ h)
      · rw [if_neg hk] at hp
        rcases List.mem_cons.mp hp with h | h
        · exact Or.inr (by simp [h])
        · rcases ih h with h2 | h2
          · exact Or.inl h2
          · exact Or.inr (List.mem_cons_of_mem _ h2)

theorem processStream_tagged (st : SampleStream) :
    ∀ m : AlertMap, processStream m st = (streamTagged st).foldl processTagged m := by
  intro m
  unfold processStream streamTagged
  by_cases hn : metricAlertname st.metric = ""
  · rw [if_pos hn, if_pos hn]
    rfl
  · rw [if_neg hn, if_neg hn, List.foldl_map]
    rfl

theorem parseAlertsMap_tagged (streams : List SampleStream) :
    ∀ m : AlertMap,
      streams.foldl processStream m = (streams.flatMap streamTagged).foldl processTagged m := by
  induction streams with
  | nil => intro m; rfl
  | cons st ss ih =>
      intro m
      rw [List.foldl_cons, List.flatMap_cons, List.foldl_append, ih, processStream_tagged]

theorem keyTimes_pairwise_of_all {l : List TaggedSample}
    (h : (l.map (fun t => t.sample.timestamp)).Pairwise (· ≤ ·)) (k : String) :
    (keyTimes k l).Pairwise (· ≤ ·) := by
  unfold keyTimes
  exact List.Pairwise.sublist ((List.filter_sublist l).map (fun t => t.sample.timestamp)) h

theorem processTagged_inv (l : List TaggedSample) :
    ∀ m : AlertMap,
      (∀ p ∈ m, alertInvB p.2 = true) →
      (∀ p ∈ m, p.2.resolvedAt = none →
        ∀ t ∈ l, tagKey t = p.1 → p.2.firedAt ≤ sampleTime t.sample.timestamp) →
      (∀ k : String, (keyTimes k l).Pairwise (· ≤ ·)) →
      ∀ p ∈ l.foldl processTagged m, alertInvB p.2 = true := by
  induction l with
  | nil => intro m h1 _ _ p hp; exact h1 p hp
  | cons t l ih =>
      intro m h1 h2 h3 p hp
      rw [List.foldl_cons] at hp
      have hsorted : ∀ k : String, (keyTimes k l).Pairwise (· ≤ ·) := by
        intro k
        have hk := h3 k
        unfold keyTimes at hk ⊢
        rw [List.filter_cons] at hk
        by_cases hkt : (tagKey t == k) = true
        · rw [if_pos hkt, List.map_cons] at hk
          exact List.Pairwise.of_cons hk
        · rw [if_neg hkt] at hk
          exact hk
      have hhead : ∀ t2 ∈ l, tagKey t2 = tagKey t →
          sampleTime t.sample.timestamp ≤ sampleTime t2.sample.timestamp := by
        intro t2 ht2 hkey
        have hk := h3 (tagKey t)
        unfold keyTimes at hk
        rw [List.filter_cons, if_pos (by simp)] at hk
        rw [List.map_cons] at hk
        have hmem : t2.sample.timestamp ∈
            ((l.filter (fun q => tagKey q == tagKey t)).map (fun q => q.sample.timestamp)) := by
          refine List.mem_map.mpr ⟨t2, ?_, rfl⟩
          exact List.mem_filter.mpr ⟨ht2, by simp [hkey]⟩
        exact sampleTime_mono ((List.pairwise_cons.mp hk).1 _ hmem)
      have h2head : ∀ q ∈ m, q.2.resolvedAt = none → tagKey t = q.1 →
          q.2.firedAt ≤ sampleTime t.sample.timestamp := by
        intro q hq hres hkey
        exact h2 q hq hres t (List.mem_cons_self _ _) hkey
      have h2tail : ∀ q ∈ m, q.2.resolvedAt = none →
          ∀ t2 ∈ l, tagKey t2 = q.1 → q.2.firedAt ≤ sampleTime t2.sample.timestamp := by
        intro q hq hres t2 ht2 hkey
        exact h2 q hq hres t2 (List.mem_cons_of_mem _ ht2) hkey
      rcases hlk : List.lookup (createAlertKey t.name t.labels) m with _ | alert
      · have hm : processTagged m t =
            m ++ [(createAlertKey t.name t.labels, mkParsedAlert t.name t.labels t.sample)] := by
          simp only [processTagged, processSample]
          rw [hlk]
        rw [hm] at hp
        refine ih _ ?_ ?_ hsorted p hp
        · intro q hq
          rcases List.mem_append.mp hq with hq2 | hq2
          · exact h1 q hq2
          · simp at hq2
            rw [hq2]
            rfl
        · intro q hq hres t2 ht2 hkey
          rcases List.mem_append.mp hq with hq2 | hq2
          · exact h2tail q hq2 hres t2 ht2 hkey
          · simp at hq2
            rw [hq2] at hkey ⊢
            have hkey2 : tagKey t2 = tagKey t := hkey
            exact hhead t2 ht2 hkey2
      · have halert : (createAlertKey t.name t.labels, alert) ∈ m := lookup_mem hlk
        by_cases hcond : t.sample.value = 0 ∧ alert.resolvedAt = none
        · have hm : processTagged m t =
              setAlert m (createAlertKey t.name t.labels)
                (resolveAlert alert (sampleTime t.sample.timestamp)) := by
            simp only [processTagged, processSample, hlk]
            rw [if_pos hcond]
          rw [hm] at hp
          have hfired : alert.firedAt ≤ sampleTime t.sample.timestamp :=
            h2head _ halert hcond.2 rfl
          refine ih _ ?_ ?_ hsorted p hp
          · intro q hq
            rcases setAlert_mem hq with hq2 | hq2
            · rw [hq2]
              simp [alertInvB, resolveAlert]
              exact hfired
            · exact h1 q hq2
          · intro q hq hres t2 ht2 hkey
            rcases setAlert_mem hq with hq2 | hq2
            · rw [hq2] at hres
              simp [resolveAlert] at hres
            · exact h2tail q hq2 hres t2 ht2 hkey
        · have hm : processTagged m t = m := by
            simp only [processTagged, processSample, hlk]
            rw [if_neg hcond]
          rw [hm] at hp
          exact ih _ h1 h2tail hsorted p hp

theorem amMapAlert_inv (now : Int) (am : AmAlert)
    (h : am.endsAt ≠ goZeroTime → am.endsAt < now → am.startsAt ≤ am.endsAt) :
    alertInvB (amMapAlert now am) = true := by
  by_cases hc : am.endsAt ≠ goZeroTime ∧ am.endsAt < now
  · have hst : am.startsAt ≤ am.endsAt := h hc.1 hc.2
    by_cases hn : ((am.labels.lookup "alertname").getD "") = ""
    · simp [amMapAlert, alertInvB, hc, hn, hst]
    · simp [amMapAlert, alertInvB, hc, hn, hst]
  · by_cases hn : ((am.labels.lookup "alertname").getD "") = ""
    · simp [amMapAlert, alertInvB, hc, hn]
    · simp [amMapAlert, alertInvB, hc, hn]

/-- Counterexample to claim C6 as stated: the Alertmanager snapshot
collector copies the source's `EndsAt` into `ResolvedAt` whenever it is set
and in the past, without checking it against `StartsAt`, so an upstream
alert whose reported end precedes its start yields `ResolvedAt < FiredAt`. -/
theorem c6_counterexample :
    (amCollectCurrentAlerts (20 * nsPerSec) [amBad]).alerts.map alertInvB = [false] ∧
    (amCollectCurrentAlerts (20 * nsPerSec) [amBad]).alerts.map (fun a => a.resolvedAt) =
      [some (5 * nsPerSec)] ∧
    (amCollectCurrentAlerts (20 * nsPerSec) [amBad]).alerts.map (fun a => a.firedAt) =
      [10 * nsPerSec] := by
  exact ⟨by decide, by decide, by decide⟩

/-- Claim C6 (amended): every alert constructed by the range-query episode
reconstruction satisfies `ResolvedAt ≥ FiredAt` provided each key's sample
sequence is processed in non-decreasing timestamp order (the order
Prometheus guarantees within a stream), and every alert constructed by the
one-shot Alertmanager snapshot satisfies it provided the source reports
`EndsAt ≥ StartsAt` for alerts whose end is set and in the past. -/
theorem c6_resolved_after_fired_amended :
    (∀ streams : List SampleStream,
      (∀ k : String, (keyTimes k (streams.flatMap streamTagged)).Pairwise (· ≤ ·)) →
      ∀ a ∈ parseAlerts streams, alertInvB a = true) ∧
    (∀ (now : Int) (amAlerts : List AmAlert),
      (∀ am ∈ amAlerts, am.endsAt ≠ goZeroTime → am.endsAt < now → am.startsAt ≤ am.endsAt) →
      ∀ a ∈ (amCollectCurrentAlerts now amAlerts).alerts, alertInvB a = true) := by
  constructor
  · intro streams hsorted a ha
    unfold parseAlerts parseAlertsMap at ha
    rw [parseAlertsMap_tagged] at ha
    obtain ⟨p, hp, hpa⟩ := List.mem_map.mp ha
    rw [← hpa]
    refine processTagged_inv _ [] ?_ ?_ hsorted p hp
    · intro q hq
      simp at hq
    · intro q hq
      simp at hq
  · intro now amAlerts hwf a ha
    simp only [amCollectCurrentAlerts] at ha
    obtain ⟨am, ham, hama⟩ := List.mem_map.mp ha
    rw [← hama]
    exact amMapAlert_inv now am (hwf am ham)

/-- Witness for C6 (amended) on the collector-test stream and a
well-formed Alertmanager alert. -/
theorem c6_witness :
    (∀ a ∈ parseAlerts [stFix], alertInvB a = true) ∧
    (∀ a ∈ (amCollectCurrentAlerts (20 * nsPerSec) [amGood]).alerts, alertInvB a = true) := by
  have h := c6_resolved_after_fired_amended
  refine ⟨h.1 [stFix] ?_, h.2 (20 * nsPerSec) [amGood] (by decide)⟩
  intro k
  exact keyTimes_pairwise_of_all (by decide) k
